import Mathlib

/-!
Shallow embedding of `src/langs/StdLibs/one.hpp` (the OneLang C++ standard
library shim) and verification of its specification.

Strings are embedded as `List Char`.  `std::string::substr(prev, count)` is
`(s.drop prev).take count`; `std::string::find(delim, start)` is modelled by a
left-to-right scan over the candidate positions `start, start+1, ..., s.length`
(`cppFindAux`/`cppFind`), returning `none` where the C++ function returns
`npos`.  The `do { ... } while (...)` loop of `OneStringHelper::split` is
embedded as the fuel-indexed loop `splitLoop`: one fuel unit per iteration of
the C++ loop, `none` meaning the loop has not finished within the given fuel
(which lets the development also talk about non-termination of the source
loop).  `std::map` is embedded as a list of key-value pairs in iteration
order; the `std::map` class invariant (keys strictly increasing) is taken as a
hypothesis where a claim needs it.  The file system seen by `OneFile::readText`
is a function from paths to `Option` contents, `none` meaning the file cannot
be opened.
-/

namespace OneMapHelper

/-- `OneMapHelper::keys`: iterate the map from `begin()` to `end()` pushing
`it->first`.  The map is embedded as its list of entries in iteration order. -/
def keys {α β : Type} (m : List (α × β)) : List α :=
  m.map Prod.fst

/-- `OneMapHelper::values`: iterate the map from `begin()` to `end()` pushing
`it->second`. -/
def values {α β : Type} (m : List (α × β)) : List β :=
  m.map Prod.snd

end OneMapHelper

/-- `str.compare(p, delim.size(), delim) == 0`: the characters of `s` starting
at position `p` begin with `d`.  When fewer than `d.length` characters remain,
the `take` is short and the comparison is `false` (for `d ≠ []`). -/
def isMatchAt (s d : List Char) (p : Nat) : Bool :=
  (s.drop p).take d.length == d

/-- Scan of candidate positions `p, p+1, ...` (`n` positions in all) for the
first match of `d` in `s`. -/
def cppFindAux (s d : List Char) : Nat → Nat → Option Nat
  | _, 0 => none
  | p, n + 1 => if isMatchAt s d p then some p else cppFindAux s d (p + 1) n

/-- `std::string::find(delim, start)`: the least `pos ≥ start` with
`pos + d.length ≤ s.length` at which `d` occurs in `s`; `none` for `npos`.
Candidate positions are `start, ..., s.length` (for an empty needle the C++
function returns `start` whenever `start ≤ s.length`). -/
def cppFind (s d : List Char) (start : Nat) : Option Nat :=
  if start ≤ s.length then cppFindAux s d start (s.length + 1 - start) else none

namespace OneStringHelper

/-- One execution of the `do`/`while` loop body of `OneStringHelper::split`,
with `prev` the loop variable and one unit of fuel per iteration:
`pos = str.find(delim, prev); if (pos == npos) pos = str.length();`
`token = str.substr(prev, pos - prev); tokens.push_back(token);`
`prev = pos + delim.length();` then the loop continues exactly when
`pos < str.length() && prev < str.length()`.  `none` means the loop has not
finished within `fuel` iterations. -/
def splitLoop (s d : List Char) : Nat → Nat → Option (List (List Char))
  | _, 0 => none
  | prev, fuel + 1 =>
    let pos := (cppFind s d prev).getD s.length
    let token := (s.drop prev).take (pos - prev)
    let prev2 := pos + d.length
    if pos < s.length ∧ prev2 < s.length then
      (splitLoop s d prev2 fuel).map (fun ts => token :: ts)
    else
      some [token]

/-- `OneStringHelper::split(str, delim)`: run the loop from `prev = 0`.
`s.length + 1` units of fuel are enough for any terminating run (each
iteration with a non-empty delimiter strictly increases `prev`, which stays
below `s.length` while the loop runs). -/
def split (s d : List Char) : Option (List (List Char)) :=
  splitLoop s d 0 (s.length + 1)

end OneStringHelper

/-- The source's `split` loop terminates on `(s, d)` : some amount of fuel is
enough to finish. -/
def splitTerm (s d : List Char) : Prop :=
  ∃ fuel ts, OneStringHelper.splitLoop s d 0 fuel = some ts

/-- `d` occurs in `s` as a contiguous substring (at some position, necessarily
`< s.length` when `d ≠ []`). -/
def occurs (d s : List Char) : Bool :=
  (List.range s.length).any fun p => isMatchAt s d p

/-- Modelled from the spec (§4.2 StringSplitter): scan `str` left to right,
locating each leftmost, non-overlapping occurrence of `delim`, emit the
substring preceding each occurrence, and continue from just past the matched
delimiter; after the last match (or if no match exists) emit the remaining
suffix as the final element.  This is the comparison point for the refinement
claims; the code's loop is `splitLoop` above. -/
def specSplitLoop (s d : List Char) : Nat → Nat → Option (List (List Char))
  | _, 0 => none
  | prev, fuel + 1 =>
    match cppFind s d prev with
    | none => some [s.drop prev]
    | some pos =>
      (specSplitLoop s d (pos + d.length) fuel).map
        (fun ts => (s.drop prev).take (pos - prev) :: ts)

/-- Modelled from the spec (§4.2 StringSplitter): the whole spec-described
split, run from position `0` with enough fuel. -/
def specSplit (s d : List Char) : Option (List (List Char)) :=
  specSplitLoop s d 0 (s.length + 1)

/-- A file system: a path either designates a file with some character
contents, or cannot be opened (`none`: nonexistent, permission denied,
invalid path). -/
def FileSys : Type :=
  String → Option (List Char)

namespace OneFile

/-- `OneFile::readText`: `ifstream file(path);` then
`string content((istreambuf_iterator<char>(file)), istreambuf_iterator<char>());`.
When the file opens, the `istreambuf_iterator` range yields exactly the file's
characters, unchanged.  When the open fails, `ifstream` sets `failbit` and
does not throw (default exception mask); a `istreambuf_iterator` over a failed
stream compares equal to the end iterator, so the constructed string is empty:
the function returns `""` with no error signalled. -/
def readText (fs : FileSys) (path : String) : List Char :=
  match fs path with
  | some content => content
  | none => []

end OneFile

/-- A file system on which no path can be opened. -/
def fsUnopenable : FileSys := fun _ => none

/-- A file system on which every path is a legitimately empty file. -/
def fsEmptyFile : FileSys := fun _ => some []

/-- A file system whose files all hold the bytes `hello\nworld`. -/
def fsHello : FileSys := fun _ => some (String.toList ("hello\nworld"))

/-! ### Basic facts about `isMatchAt` and `cppFind` -/

theorem isMatchAt_iff {s d : List Char} {p : Nat} :
    isMatchAt s d p = true ↔ (s.drop p).take d.length = d := by
  simp [isMatchAt]

theorem isMatchAt_bounds {s d : List Char} {p : Nat} (hd : d ≠ [])
    (h : isMatchAt s d p = true) : p + d.length ≤ s.length ∧ p < s.length := by
  rw [isMatchAt_iff] at h
  have hlen : min d.length (s.length - p) = d.length := by
    have := congrArg List.length h
    simpa [List.length_take, List.length_drop] using this
  have hd1 : 1 ≤ d.length := by
    cases d with
    | nil => exact absurd rfl hd
    | cons a t => exact Nat.succ_le_succ (Nat.zero_le _)
  omega

theorem isMatchAt_of_ge_length {s d : List Char} {p : Nat} (hd : d ≠ [])
    (h : s.length ≤ p) : isMatchAt s d p = false := by
  have hdrop : s.drop p = [] := List.drop_eq_nil_of_le h
  cases hmatch : isMatchAt s d p with
  | false => rfl
  | true =>
    rw [isMatchAt_iff] at hmatch
    rw [hdrop] at hmatch
    simp at hmatch
    exact absurd hmatch hd

theorem isMatchAt_nil {d : List Char} {p : Nat} (hd : d ≠ []) :
    isMatchAt [] d p = false :=
  isMatchAt_of_ge_length hd (Nat.zero_le p)

theorem cppFindAux_some {s d : List Char} {p n q : Nat}
    (h : cppFindAux s d p n = some q) :
    p ≤ q ∧ q < p + n ∧ isMatchAt s d q = true ∧
      ∀ r, p ≤ r → r < q → isMatchAt s d r = false := by
  induction n generalizing p with
  | zero => exact absurd h (by simp [cppFindAux])
  | succ n ih =>
    rw [cppFindAux] at h
    by_cases hm : isMatchAt s d p = true
    · rw [if_pos hm] at h
      cases h
      exact ⟨Nat.le_refl _, by omega, hm, fun r h1 h2 => absurd (Nat.lt_of_le_of_lt h1 h2) (Nat.lt_irrefl _)⟩
    · rw [if_neg hm] at h
      obtain ⟨h1, h2, h3, h4⟩ := ih h
      refine ⟨by omega, by omega, h3, fun r hr1 hr2 => ?_⟩
      rcases Nat.eq_or_lt_of_le hr1 with heq | hlt
      · subst heq; exact Bool.eq_false_iff.mpr hm
      · exact h4 r hlt hr2

theorem cppFindAux_none {s d : List Char} {p n : Nat}
    (h : cppFindAux s d p n = none) :
    ∀ r, p ≤ r → r < p + n → isMatchAt s d r = false := by
  induction n generalizing p with
  | zero => intro r h1 h2; omega
  | succ n ih =>
    rw [cppFindAux] at h
    by_cases hm : isMatchAt s d p = true
    · rw [if_pos hm] at h; exact absurd h (by simp)
    · rw [if_neg hm] at h
      intro r h1 h2
      rcases Nat.eq_or_lt_of_le h1 with heq | hlt
      · subst heq; exact Bool.eq_false_iff.mpr hm
      · exact ih h r hlt (by omega)

theorem cppFindAux_of_match {s d : List Char} {p : Nat} (n : Nat)
    (hm : isMatchAt s d p = true) (hn : 1 ≤ n) : cppFindAux s d p n = some p := by
  cases n with
  | zero => omega
  | succ n => rw [cppFindAux, if_pos hm]

theorem cppFind_some {s d : List Char} {start q : Nat}
    (h : cppFind s d start = some q) :
    start ≤ q ∧ q ≤ s.length ∧ isMatchAt s d q = true ∧
      ∀ r, start ≤ r → r < q → isMatchAt s d r = false := by
  rw [cppFind] at h
  by_cases hs : start ≤ s.length
  · rw [if_pos hs] at h
    obtain ⟨h1, h2, h3, h4⟩ := cppFindAux_some h
    exact ⟨h1, by omega, h3, h4⟩
  · rw [if_neg hs] at h; exact absurd h (by simp)

theorem cppFind_none {s d : List Char} {start : Nat} (hd : d ≠ [])
    (h : cppFind s d start = none) :
    ∀ r, start ≤ r → isMatchAt s d r = false := by
  intro r hr
  rw [cppFind] at h
  by_cases hs : start ≤ s.length
  · rw [if_pos hs] at h
    by_cases hrlen : r ≤ s.length
    · exact cppFindAux_none h r hr (by omega)
    · exact isMatchAt_of_ge_length hd (by omega)
  · exact isMatchAt_of_ge_length hd (by omega)

theorem cppFind_of_match {s d : List Char} {p : Nat} (hd : d ≠ [])
    (hm : isMatchAt s d p = true) : cppFind s d p = some p := by
  have hb := isMatchAt_bounds hd hm
  rw [cppFind, if_pos (Nat.le_of_lt hb.2)]
  exact cppFindAux_of_match _ hm (by omega)

theorem cppFind_length_none {s d : List Char} (hd : d ≠ []) :
    cppFind s d s.length = none := by
  rw [cppFind, if_pos (Nat.le_refl _)]
  have : s.length + 1 - s.length = 1 := by omega
  rw [this, cppFindAux, if_neg]
  · rfl
  · simp [isMatchAt_of_ge_length hd (Nat.le_refl s.length)]

theorem cppFind_none_of_no_occur {s d : List Char} (hd : d ≠ [])
    (h : occurs d s = false) : cppFind s d 0 = none := by
  have hall : ∀ p, isMatchAt s d p = false := by
    intro p
    by_cases hp : p < s.length
    · have := (List.any_eq_false).mp h p (List.mem_range.mpr hp)
      simpa using this
    · exact isMatchAt_of_ge_length hd (by omega)
  rw [cppFind, if_pos (Nat.zero_le _)]
  cases hfind : cppFindAux s d 0 (s.length + 1 - 0) with
  | none => rfl
  | some q =>
    obtain ⟨_, _, h3, _⟩ := cppFindAux_some hfind
    rw [hall q] at h3
    exact absurd h3 (by simp)

/-! ### Basic facts about the split loop -/

theorem splitLoop_succ (s d : List Char) (prev fuel : Nat) :
    OneStringHelper.splitLoop s d prev (fuel + 1) =
      if (cppFind s d prev).getD s.length < s.length ∧
          (cppFind s d prev).getD s.length + d.length < s.length then
        (OneStringHelper.splitLoop s d ((cppFind s d prev).getD s.length + d.length) fuel).map
          (fun ts => (s.drop prev).take ((cppFind s d prev).getD s.length - prev) :: ts)
      else
        some [(s.drop prev).take ((cppFind s d prev).getD s.length - prev)] :=
  rfl

theorem specSplitLoop_succ (s d : List Char) (prev fuel : Nat) :
    specSplitLoop s d prev (fuel + 1) =
      match cppFind s d prev with
      | none => some [s.drop prev]
      | some pos =>
        (specSplitLoop s d (pos + d.length) fuel).map
          (fun ts => (s.drop prev).take (pos - prev) :: ts) :=
  rfl

theorem splitLoop_ne_nil {s d : List Char} {prev fuel : Nat} {ts : List (List Char)}
    (h : OneStringHelper.splitLoop s d prev fuel = some ts) : ts ≠ [] := by
  induction fuel generalizing prev ts with
  | zero => exact absurd h (by simp [OneStringHelper.splitLoop])
  | succ fuel ih =>
    rw [splitLoop_succ] at h
    by_cases hc : (cppFind s d prev).getD s.length < s.length ∧
        (cppFind s d prev).getD s.length + d.length < s.length
    · rw [if_pos hc] at h
      obtain ⟨ts1, hts1, hf⟩ := Option.map_eq_some'.mp h
      rw [← hf]
      simp
    · rw [if_neg hc] at h
      cases h
      simp

theorem splitLoop_total (s : List Char) {d : List Char} (hd : d ≠ []) :
    ∀ fuel prev, prev ≤ s.length → s.length - prev < fuel →
      ∃ ts, OneStringHelper.splitLoop s d prev fuel = some ts := by
  have hd1 : 1 ≤ d.length := List.length_pos.mpr hd
  intro fuel
  induction fuel with
  | zero => intro prev h1 h2; omega
  | succ fuel ih =>
    intro prev h1 h2
    rw [splitLoop_succ]
    cases hfind : cppFind s d prev with
    | none =>
      simp only [Option.getD_none]
      rw [if_neg (by omega)]
      exact ⟨_, rfl⟩
    | some pos =>
      simp only [Option.getD_some]
      obtain ⟨hp1, hp2, hp3, _⟩ := cppFind_some hfind
      have hlen := isMatchAt_bounds hd hp3
      by_cases hc : pos < s.length ∧ pos + d.length < s.length
      · obtain ⟨ts1, hts1⟩ := ih (pos + d.length) (by omega) (by omega)
        rw [if_pos hc, hts1]
        exact ⟨_, rfl⟩
      · rw [if_neg hc]
        exact ⟨_, rfl⟩

theorem cppFind_nil {d : List Char} (hd : d ≠ []) (start : Nat) :
    cppFind [] d start = none := by
  cases hfind : cppFind [] d start with
  | none => rfl
  | some q =>
    obtain ⟨_, _, h3, _⟩ := cppFind_some hfind
    rw [isMatchAt_nil hd] at h3
    exact absurd h3 (by simp)

theorem splitLoop_succ_none {s d : List Char} {prev : Nat} (fuel : Nat)
    (hfind : cppFind s d prev = none) :
    OneStringHelper.splitLoop s d prev (fuel + 1) =
      some [(s.drop prev).take (s.length - prev)] := by
  rw [splitLoop_succ, hfind]
  simp only [Option.getD_none]
  rw [if_neg (by omega)]

theorem splitLoop_succ_some {s d : List Char} {prev pos : Nat} (fuel : Nat)
    (hfind : cppFind s d prev = some pos) :
    OneStringHelper.splitLoop s d prev (fuel + 1) =
      if pos < s.length ∧ pos + d.length < s.length then
        (OneStringHelper.splitLoop s d (pos + d.length) fuel).map
          (fun ts => (s.drop prev).take (pos - prev) :: ts)
      else
        some [(s.drop prev).take (pos - prev)] := by
  rw [splitLoop_succ, hfind]
  simp only [Option.getD_some]

theorem specSplitLoop_succ_none {s d : List Char} {prev : Nat} (fuel : Nat)
    (hfind : cppFind s d prev = none) :
    specSplitLoop s d prev (fuel + 1) = some [s.drop prev] := by
  rw [specSplitLoop_succ, hfind]

theorem specSplitLoop_succ_some {s d : List Char} {prev pos : Nat} (fuel : Nat)
    (hfind : cppFind s d prev = some pos) :
    specSplitLoop s d prev (fuel + 1) =
      (specSplitLoop s d (pos + d.length) fuel).map
        (fun ts => (s.drop prev).take (pos - prev) :: ts) := by
  rw [specSplitLoop_succ, hfind]

/-- Core refinement invariant: while the loop runs (`prev < s.length`), the
code's loop result agrees with the spec-described loop, except that when the
final delimiter match ends exactly at the end of `str` the spec emits one
more (empty) element that the code's exit condition `prev < str.length()`
cuts off. -/
theorem splitLoop_spec_rel {s d : List Char} (hd : d ≠ []) :
    ∀ fuel prev, prev < s.length → s.length - prev < fuel →
      ∃ ts, OneStringHelper.splitLoop s d prev fuel = some ts ∧
        ((specSplitLoop s d prev fuel = some ts ∧ ts.getLast? ≠ some []) ∨
          specSplitLoop s d prev fuel = some (ts ++ [[]])) := by
  have hd1 : 1 ≤ d.length := List.length_pos.mpr hd
  intro fuel
  induction fuel with
  | zero => intro prev h1 h2; omega
  | succ fuel ih =>
    intro prev h1 h2
    cases hfind : cppFind s d prev with
    | none =>
      rw [splitLoop_succ_none fuel hfind, specSplitLoop_succ_none fuel hfind]
      have htoken : (s.drop prev).take (s.length - prev) = s.drop prev := by
        apply List.take_of_length_le
        simp [List.length_drop]
      refine ⟨[s.drop prev], by rw [htoken], Or.inl ⟨rfl, ?_⟩⟩
      have hne : s.drop prev ≠ [] := by
        intro hnil
        have := congrArg List.length hnil
        simp [List.length_drop] at this
        omega
      simpa using hne
    | some pos =>
      obtain ⟨hp1, hp2, hp3, _⟩ := cppFind_some hfind
      have hlen := isMatchAt_bounds hd hp3
      rw [splitLoop_succ_some fuel hfind, specSplitLoop_succ_some fuel hfind]
      by_cases hc : pos + d.length < s.length
      · rw [if_pos ⟨hlen.2, hc⟩]
        obtain ⟨ts1, hcode, hspec⟩ := ih (pos + d.length) hc (by omega)
        rw [hcode]
        have hne := splitLoop_ne_nil hcode
        refine ⟨(s.drop prev).take (pos - prev) :: ts1, rfl, ?_⟩
        rcases hspec with ⟨hsp, hlast⟩ | hsp
        · left
          refine ⟨by rw [hsp]; rfl, ?_⟩
          cases ts1 with
          | nil => exact absurd rfl hne
          | cons b l => rw [List.getLast?_cons_cons]; exact hlast
        · right
          rw [hsp]
          rfl
      · have hprev2 : pos + d.length = s.length := by omega
        rw [if_neg (by omega)]
        cases fuel with
        | zero => omega
        | succ fuel2 =>
          rw [hprev2, specSplitLoop_succ_none fuel2 (cppFind_length_none hd)]
          refine ⟨[(s.drop prev).take (pos - prev)], rfl, Or.inr ?_⟩
          rw [List.drop_length]
          rfl

/-- With an empty delimiter and a non-empty input, `find` matches immediately
at `prev`, `prev = pos + 0` never advances, and the loop condition
`pos < len && prev < len` stays true: the source's `do`/`while` loop never
terminates, whatever the amount of fuel. -/
theorem splitLoop_empty_delim_none {s : List Char} (hs : s ≠ []) :
    ∀ fuel, OneStringHelper.splitLoop s [] 0 fuel = none := by
  have hlen : 0 < s.length := List.length_pos.mpr hs
  have hfind : cppFind s [] 0 = some 0 := by
    rw [cppFind, if_pos (Nat.zero_le _)]
    apply cppFindAux_of_match
    · rw [isMatchAt_iff]
      simp
    · omega
  intro fuel
  induction fuel with
  | zero => rfl
  | succ fuel ih =>
    rw [splitLoop_succ_some fuel hfind]
    simp only [List.length_nil, Nat.add_zero]
    rw [if_pos ⟨hlen, hlen⟩, ih]
    rfl

/-- C1 (amended): a trailing delimiter does NOT produce a final empty-string
element.  In general the code's `split` agrees with the spec-described split
except that when the last delimiter match ends exactly at the end of `str`
(equivalently: the spec result's last element is empty and `str` is
non-empty), the code's exit condition `prev < str.length()` cuts off that
final empty element.  In particular `split("a,", ",") = ["a"]`. -/
theorem split_drops_trailing_empty_token (s d : List Char) (hd : d ≠ []) :
    ∃ ts, specSplit s d = some ts ∧
      OneStringHelper.split s d =
        some (if s ≠ [] ∧ ts.getLast? = some [] then ts.dropLast else ts) := by
  by_cases hs : s = []
  · subst hs
    refine ⟨[[]], ?_, ?_⟩
    · rw [specSplit, specSplitLoop_succ_none _ (cppFind_nil hd 0)]
      rfl
    · rw [if_neg (by simp)]
      rw [OneStringHelper.split, splitLoop_succ_none _ (cppFind_nil hd 0)]
      rfl
  · have h1 : 0 < s.length := List.length_pos.mpr hs
    obtain ⟨ts, hcode, hspec⟩ := splitLoop_spec_rel hd (s.length + 1) 0 h1 (by omega)
    rcases hspec with ⟨hsp, hlast⟩ | hsp
    · refine ⟨ts, hsp, ?_⟩
      rw [OneStringHelper.split, hcode, if_neg (fun hcontra => hlast hcontra.2)]
    · refine ⟨ts ++ [[]], hsp, ?_⟩
      rw [OneStringHelper.split, hcode,
        if_pos ⟨hs, by rw [List.getLast?_concat]⟩, List.dropLast_concat]

/-- C1: counterexample to the claim as stated.  `split("a,", ",")` returns
the one-element sequence `["a"]`, not `["a", ""]`. -/
theorem split_trailing_delim_counterexample :
    OneStringHelper.split (String.toList ("a,")) (String.toList (",")) =
        some [String.toList ("a")] ∧
      some [String.toList ("a")] ≠
        some [String.toList ("a"), String.toList ("")] := by
  constructor
  · decide
  · decide

/-- C1: witness instantiating the amended theorem at `split("a,", ",")`. -/
theorem split_drops_trailing_empty_token_witness :
    (String.toList (",") ≠ []) ∧
      ∃ ts, specSplit (String.toList ("a,")) (String.toList (",")) = some ts ∧
        OneStringHelper.split (String.toList ("a,")) (String.toList (",")) =
          some (if String.toList ("a,") ≠ [] ∧ ts.getLast? = some [] then
            ts.dropLast else ts) :=
  ⟨by decide,
    split_drops_trailing_empty_token (String.toList ("a,")) (String.toList (",")) (by decide)⟩

/-- C3 (amended): the scan loop terminates and returns a well-defined
sequence for every `str` and every NON-EMPTY delimiter (the only case the
spec's data model allows); with an empty delimiter and a non-empty `str` the
source's loop does not terminate. -/
theorem split_total_nonempty_delim (s d : List Char) (hd : d ≠ []) :
    ∃ ts, OneStringHelper.split s d = some ts := by
  obtain ⟨ts, h⟩ := splitLoop_total s hd (s.length + 1) 0 (Nat.zero_le _) (by omega)
  exact ⟨ts, h⟩

/-- C3: counterexample to "delimiter of any length": with the empty
delimiter and the non-empty string `"a"` the loop never terminates (no
amount of fuel makes it finish). -/
theorem split_nonterm_counterexample : ¬ splitTerm ['a'] [] := by
  rintro ⟨fuel, ts, h⟩
  rw [splitLoop_empty_delim_none (by decide) fuel] at h
  exact Option.noConfusion h

/-- C3: witness instantiating the amended theorem at `split("a", ",")`. -/
theorem split_total_nonempty_delim_witness :
    (String.toList (",") ≠ []) ∧
      ∃ ts, OneStringHelper.split (String.toList ("a")) (String.toList (",")) = some ts :=
  ⟨by decide,
    split_total_nonempty_delim (String.toList ("a")) (String.toList (",")) (by decide)⟩

/-- C8: whenever the source's split loop terminates (any fuel suffices to
finish), the resulting sequence has at least one element: the `do`/`while`
body pushes a token before the condition is ever tested. -/
theorem split_result_nonempty (s d : List Char) (fuel : Nat) (ts : List (List Char))
    (h : OneStringHelper.splitLoop s d 0 fuel = some ts) : ts ≠ [] :=
  splitLoop_ne_nil h

/-- C8: witness at `split("a", ",")` run with fuel 2. -/
theorem split_result_nonempty_witness :
    (OneStringHelper.splitLoop (String.toList ("a")) (String.toList (",")) 0 2 =
        some [String.toList ("a")]) ∧
      [String.toList ("a")] ≠ ([] : List (List Char)) :=
  ⟨by decide,
    split_result_nonempty (String.toList ("a")) (String.toList (",")) 2
      [String.toList ("a")] (by decide)⟩

/-- C6: if the (non-empty) delimiter does not occur in `str`, `find` never
matches, the first iteration consumes the whole string and the loop exits:
the result is the single-element sequence `[str]`.  For empty `str` the
occurrence hypothesis holds vacuously, so this also gives
`split("", delim) = [""]`. -/
theorem split_no_occurrence (s d : List Char) (hd : d ≠ [])
    (hocc : occurs d s = false) :
    OneStringHelper.split s d = some [s] := by
  have hfind : cppFind s d 0 = none := cppFind_none_of_no_occur hd hocc
  rw [OneStringHelper.split, splitLoop_succ_none _ hfind]
  simp [List.take_length]

/-- C6: witness at `split("abc", ",")` (and the empty-string case
`split("", ",")` follows from the same theorem). -/
theorem split_no_occurrence_witness :
    (String.toList (",") ≠ [] ∧
        occurs (String.toList (",")) (String.toList ("abc")) = false) ∧
      OneStringHelper.split (String.toList ("abc")) (String.toList (",")) =
        some [String.toList ("abc")] :=
  ⟨⟨by decide, by decide⟩,
    split_no_occurrence (String.toList ("abc")) (String.toList (",")) (by decide) (by decide)⟩

/-- C5: two adjacent delimiter occurrences (the scan's match at `pos`
followed immediately by an occurrence at `pos + d.length`) make the loop
emit the empty string as the element between them — no collapsing.  The
element before them is the usual `substr(prev, pos - prev)` token, and the
tail continues after the second occurrence. -/
theorem split_consecutive_delims_empty_token (s d : List Char)
    (prev pos fuel : Nat) (ts : List (List Char)) (hd : d ≠ [])
    (hfind : cppFind s d prev = some pos)
    (hnext : isMatchAt s d (pos + d.length) = true)
    (hloop : OneStringHelper.splitLoop s d prev fuel = some ts) :
    ∃ rest, ts = (s.drop prev).take (pos - prev) :: [] :: rest := by
  have hd1 : 1 ≤ d.length := List.length_pos.mpr hd
  obtain ⟨hp1, hp2, hp3, _⟩ := cppFind_some hfind
  have hb1 := isMatchAt_bounds hd hp3
  have hb2 := isMatchAt_bounds hd hnext
  cases fuel with
  | zero => exact absurd hloop (by simp [OneStringHelper.splitLoop])
  | succ fuel =>
    rw [splitLoop_succ_some fuel hfind, if_pos ⟨hb1.2, hb2.2⟩] at hloop
    obtain ⟨ts1, hts1, hcons⟩ := Option.map_eq_some'.mp hloop
    have hfind2 : cppFind s d (pos + d.length) = some (pos + d.length) :=
      cppFind_of_match hd hnext
    cases fuel with
    | zero => exact absurd hts1 (by simp [OneStringHelper.splitLoop])
    | succ fuel2 =>
      rw [splitLoop_succ_some fuel2 hfind2] at hts1
      by_cases hc2 : pos + d.length < s.length ∧ pos + d.length + d.length < s.length
      · rw [if_pos hc2] at hts1
        obtain ⟨ts2, _, hcons2⟩ := Option.map_eq_some'.mp hts1
        refine ⟨ts2, ?_⟩
        rw [← hcons, ← hcons2]
        simp
      · rw [if_neg hc2] at hts1
        cases hts1
        refine ⟨[], ?_⟩
        rw [← hcons]
        simp

/-- C5: witness at `split("a,,b", ",")`, whose scan from 0 matches at 1 with
another occurrence immediately at 2, giving `["a", "", "b"]`. -/
theorem split_consecutive_delims_empty_token_witness :
    (String.toList (",") ≠ [] ∧
        cppFind (String.toList ("a,,b")) (String.toList (",")) 0 = some 1 ∧
        isMatchAt (String.toList ("a,,b")) (String.toList (","))
          (1 + (String.toList (",")).length) = true ∧
        OneStringHelper.splitLoop (String.toList ("a,,b")) (String.toList (",")) 0 5 =
          some [String.toList ("a"), [], String.toList ("b")]) ∧
      ∃ rest, [String.toList ("a"), [], String.toList ("b")] =
        ((String.toList ("a,,b")).drop 0).take (1 - 0) :: [] :: rest :=
  ⟨⟨by decide, by decide, by decide, by decide⟩,
    split_consecutive_delims_empty_token (String.toList ("a,,b")) (String.toList (","))
      0 1 5 [String.toList ("a"), [], String.toList ("b")]
      (by decide) (by decide) (by decide) (by decide)⟩

/-- A match of `d` inside the token `substr(prev, m)` of `s` lifts to a match
of `d` in `s` itself, at the corresponding absolute position. -/
theorem isMatchAt_take_lift {s d : List Char} (prev m j : Nat) (hd : d ≠ [])
    (h : isMatchAt ((s.drop prev).take m) d j = true) :
    isMatchAt s d (prev + j) = true ∧ j + d.length ≤ m := by
  have hd1 : 1 ≤ d.length := List.length_pos.mpr hd
  rw [isMatchAt_iff] at h
  have hlen : j + d.length ≤ ((s.drop prev).take m).length := by
    have hl := congrArg List.length h
    rw [List.length_take, List.length_drop] at hl
    omega
  have hm : ((s.drop prev).take m).length ≤ m := by
    rw [List.length_take]
    omega
  have hjm : j + d.length ≤ m := le_trans hlen hm
  refine ⟨?_, hjm⟩
  rw [isMatchAt_iff]
  rw [List.drop_take, List.drop_drop, List.take_take, min_eq_left (by omega)] at h
  exact h

/-- If the scan finds no match of `d` in `s` anywhere in `[prev, pos)`, then
the emitted token `substr(prev, pos - prev)` contains no occurrence of `d`. -/
theorem token_no_occur {s d : List Char} (hd : d ≠ []) (prev pos : Nat)
    (hmin : ∀ r, prev ≤ r → r < pos → isMatchAt s d r = false) :
    occurs d ((s.drop prev).take (pos - prev)) = false := by
  have hd1 : 1 ≤ d.length := List.length_pos.mpr hd
  unfold occurs
  rw [List.any_eq_false]
  intro p hp
  rw [List.mem_range] at hp
  intro hm
  obtain ⟨habs, hbound⟩ := isMatchAt_take_lift prev (pos - prev) p hd hm
  rw [hmin (prev + p) (by omega) (by omega)] at habs
  exact absurd habs (by simp)

theorem splitLoop_tokens_no_occur {s d : List Char} (hd : d ≠ []) :
    ∀ fuel prev ts, OneStringHelper.splitLoop s d prev fuel = some ts →
      ∀ t ∈ ts, occurs d t = false := by
  intro fuel
  induction fuel with
  | zero => intro prev ts h; exact absurd h (by simp [OneStringHelper.splitLoop])
  | succ fuel ih =>
    intro prev ts h
    cases hfind : cppFind s d prev with
    | none =>
      rw [splitLoop_succ_none fuel hfind] at h
      cases h
      intro t ht
      simp only [List.mem_singleton] at ht
      subst ht
      exact token_no_occur hd prev s.length (fun r h1 _ => cppFind_none hd hfind r h1)
    | some pos =>
      obtain ⟨hp1, hp2, hp3, hmin⟩ := cppFind_some hfind
      rw [splitLoop_succ_some fuel hfind] at h
      by_cases hc : pos < s.length ∧ pos + d.length < s.length
      · rw [if_pos hc] at h
        obtain ⟨ts1, hts1, hcons⟩ := Option.map_eq_some'.mp h
        intro t ht
        rw [← hcons] at ht
        simp only [List.mem_cons] at ht
        rcases ht with rfl | ht
        · exact token_no_occur hd prev pos hmin
        · exact ih (pos + d.length) ts1 hts1 t ht
      · rw [if_neg hc] at h
        cases h
        intro t ht
        simp only [List.mem_singleton] at ht
        subst ht
        exact token_no_occur hd prev pos hmin

/-- C9: with a non-empty delimiter, no element of the returned sequence
contains an occurrence of the delimiter as a substring: every token is cut
strictly before the leftmost match at or after its start position. -/
theorem split_tokens_delim_free (s d : List Char) (ts : List (List Char)) (hd : d ≠ [])
    (h : OneStringHelper.split s d = some ts) :
    ∀ t ∈ ts, occurs d t = false :=
  splitLoop_tokens_no_occur hd (s.length + 1) 0 ts h

/-- C9: witness at `split("a,b", ",") = ["a", "b"]`: the element `"a"` is
delimiter-free. -/
theorem split_tokens_delim_free_witness :
    (String.toList (",") ≠ [] ∧
        OneStringHelper.split (String.toList ("a,b")) (String.toList (",")) =
          some [String.toList ("a"), String.toList ("b")]) ∧
      occurs (String.toList (",")) (String.toList ("a")) = false :=
  ⟨⟨by decide, by decide⟩,
    split_tokens_delim_free (String.toList ("a,b")) (String.toList (","))
      [String.toList ("a"), String.toList ("b")] (by decide) (by decide)
      (String.toList ("a")) (by decide)⟩

/-- C4: `keys` and `values` both have the map's length, and at every index
the pair of the i-th key and the i-th value is exactly the map's i-th entry
in iteration order (for an empty map both results are empty by the length
equations). -/
theorem keys_values_aligned {α β : Type} (m : List (α × β)) :
    (OneMapHelper.keys m).length = m.length ∧
      (OneMapHelper.values m).length = m.length ∧
      ∀ i (h1 : i < (OneMapHelper.keys m).length)
        (h2 : i < (OneMapHelper.values m).length) (h3 : i < m.length),
        ((OneMapHelper.keys m).get ⟨i, h1⟩, (OneMapHelper.values m).get ⟨i, h2⟩) =
          m.get ⟨i, h3⟩ := by
  refine ⟨by simp [OneMapHelper.keys], by simp [OneMapHelper.values], ?_⟩
  intro i h1 h2 h3
  simp [OneMapHelper.keys, OneMapHelper.values, List.get_eq_getElem]

/-- C4: witness at the two-entry map `[(1, 10), (2, 20)]`, index 0. -/
theorem keys_values_aligned_witness :
    ((0 : Nat) < (OneMapHelper.keys [((1 : Nat), (10 : Nat)), (2, 20)]).length ∧
        (0 : Nat) < (OneMapHelper.values [((1 : Nat), (10 : Nat)), (2, 20)]).length ∧
        (0 : Nat) < ([((1 : Nat), (10 : Nat)), (2, 20)] : List (Nat × Nat)).length) ∧
      ((OneMapHelper.keys [((1 : Nat), (10 : Nat)), (2, 20)]).get ⟨0, by decide⟩,
          (OneMapHelper.values [((1 : Nat), (10 : Nat)), (2, 20)]).get ⟨0, by decide⟩) =
        ([((1 : Nat), (10 : Nat)), (2, 20)] : List (Nat × Nat)).get ⟨0, by decide⟩ :=
  ⟨⟨by decide, by decide, by decide⟩,
    (keys_values_aligned [((1 : Nat), (10 : Nat)), (2, 20)]).2.2 0
      (by decide) (by decide) (by decide)⟩

/-- C10: under the `std::map` class invariant (entries strictly increasing by
key in iteration order), `keys(m)` is strictly increasing, hence pairwise
distinct. -/
theorem keys_strictly_increasing {α β : Type} [Preorder α] (m : List (α × β))
    (hsorted : m.Pairwise (fun e f => e.1 < f.1)) :
    (OneMapHelper.keys m).Pairwise (fun a b => a < b) ∧
      (OneMapHelper.keys m).Nodup := by
  have hp : (OneMapHelper.keys m).Pairwise (fun a b => a < b) := by
    unfold OneMapHelper.keys
    rw [List.pairwise_map]
    exact hsorted
  exact ⟨hp, hp.imp ne_of_lt⟩

/-- C10: witness at the two-entry map `[(1, 97), (2, 98)]`. -/
theorem keys_strictly_increasing_witness :
    ([((1 : Nat), (97 : Nat)), (2, 98)] : List (Nat × Nat)).Pairwise
        (fun e f => e.1 < f.1) ∧
      ((OneMapHelper.keys [((1 : Nat), (97 : Nat)), (2, 98)]).Pairwise
          (fun a b => a < b) ∧
        (OneMapHelper.keys [((1 : Nat), (97 : Nat)), (2, 98)]).Nodup) :=
  ⟨by decide, keys_strictly_increasing [((1 : Nat), (97 : Nat)), (2, 98)] (by decide)⟩

/-- C2 (amended): on a path that cannot be opened, `readText` silently
returns the empty string: `ifstream` just sets `failbit` (it does not throw
with the default exception mask), the `istreambuf_iterator` range over the
failed stream is empty, and the caller receives `""` — indistinguishable
from reading a legitimately empty file.  No failure is signalled. -/
theorem readText_unopenable_empty (fs : FileSys) (p : String)
    (h : fs p = none) :
    OneFile.readText fs p = [] ∧
      OneFile.readText fs p = OneFile.readText fsEmptyFile p := by
  refine ⟨?_, ?_⟩ <;> simp [OneFile.readText, h, fsEmptyFile]

/-- C2: counterexample to the claim as stated: on a file system where the
path cannot be opened, `readText` returns a normal (empty) string equal to
what it returns for a legitimately empty file — no detectable failure. -/
theorem readText_unopenable_counterexample :
    OneFile.readText fsUnopenable ("missing.txt") = [] ∧
      OneFile.readText fsUnopenable ("missing.txt") =
        OneFile.readText fsEmptyFile ("missing.txt") :=
  ⟨rfl, rfl⟩

/-- C2: witness instantiating the amended theorem on the unopenable file
system. -/
theorem readText_unopenable_empty_witness :
    (fsUnopenable ("absent.txt") = none) ∧
      (OneFile.readText fsUnopenable ("absent.txt") = [] ∧
        OneFile.readText fsUnopenable ("absent.txt") =
          OneFile.readText fsEmptyFile ("absent.txt")) :=
  ⟨rfl, readText_unopenable_empty fsUnopenable ("absent.txt") rfl⟩

/-- C7: on a readable file, `readText` returns the file's entire contents as
a single string, character for character, with no transformation (the
`istreambuf_iterator` range is the raw character sequence). -/
theorem readText_returns_contents (fs : FileSys) (p : String) (c : List Char)
    (h : fs p = some c) : OneFile.readText fs p = c := by
  simp [OneFile.readText, h]

/-- C7: witness on a file holding exactly the bytes `hello\nworld`. -/
theorem readText_returns_contents_witness :
    (fsHello ("f.txt") = some (String.toList ("hello\nworld"))) ∧
      OneFile.readText fsHello ("f.txt") = String.toList ("hello\nworld") :=
  ⟨rfl,
    readText_returns_contents fsHello ("f.txt") (String.toList ("hello\nworld")) rfl⟩

